import Mathlib

/-!
Verification development for the fast-context-mcp engine: a shallow
embedding, in Lean 4, of the JSON repair ladder (`src/json-repair.mjs`),
the hand-written Protobuf varint codec and Connect-RPC frame transport
(`core-proto` module), the tool executor's truncation/path mapping, and
the turn-based search orchestration loop, together with theorems about
the spec-level claims for those components.

Strings of the JavaScript source are modelled as `List Char`; bytes (the
Node.js `Buffer` cells) are modelled as `Nat` with explicit `% 256`-style
wrapping where the JavaScript 32-bit operators apply; fallible
operations return `Option`.
-/

/- ───────────────────────── JS primitive helpers ───────────────────────── -/

/-- The character set removed by JavaScript `String.prototype.trim`
(WhiteSpace ∪ LineTerminator; the ASCII members plus NBSP, BOM and the
Unicode space separators that matter here). -/
def isJsTrimChar (c : Char) : Bool :=
  c == ' ' || c == '\t' || c == '\n' || c == '\x0b' || c == '\x0c' || c == '\r' ||
  c == ' ' || c == ' ' || c == ' ' || c == '﻿' || c == '　'

/-- JavaScript `s.trim()` on a character list. -/
def jsTrim (s : List Char) : List Char :=
  ((s.dropWhile isJsTrimChar).reverse.dropWhile isJsTrimChar).reverse

/-- JavaScript `s.startsWith(p)`, computed on the character lists. -/
def jsStartsWith (s p : String) : Bool :=
  p.data.isPrefixOf s.data

/-- JavaScript `text.split(sep)` for a one-character separator, on
character lists: splitting never yields an empty list (splitting the
empty string yields `[[]]`, as JS yields `[""]`). -/
def splitCharList (p : Char → Bool) : List Char → List (List Char)
  | [] => [[]]
  | c :: rest =>
    if p c then [] :: splitCharList p rest
    else
      match splitCharList p rest with
      | h :: t => (c :: h) :: t
      | [] => [[c]]

/-- JavaScript `text.split("\n")`. -/
def splitNl (s : String) : List String :=
  (splitCharList (fun c => c == '\n') s.data).map String.mk

/-- One step of JavaScript `replaceAll`, fueled by the input length
(each step consumes at least one character when the pattern is
nonempty). -/
def replaceAllGo (pat rep : List Char) : Nat → List Char → List Char
  | 0, cs => cs
  | _ + 1, [] => []
  | fuel + 1, c :: rest =>
    if pat.isPrefixOf (c :: rest) then
      rep ++ replaceAllGo pat rep fuel ((c :: rest).drop pat.length)
    else c :: replaceAllGo pat rep fuel rest

/-- JavaScript `text.replaceAll(pat, rep)` (left to right, no rescan of
replaced text; the patterns used by the source are nonempty). -/
def jsReplaceAll (text pat rep : String) : String :=
  if pat.data.isEmpty then text
  else String.mk (replaceAllGo pat.data rep.data (text.data.length + 1) text.data)

/-- The four whitespace characters the repair scanners in
`json-repair.mjs` skip explicitly (space, tab, newline, carriage return). -/
def isRepairWs (c : Char) : Bool :=
  c == ' ' || c == '\t' || c == '\n' || c == '\r'

/- ───────────────────────── JSON.parse model ─────────────────────────

`repairJson` probes candidate strings with JavaScript `JSON.parse`,
catching the exception; we model that as an `Option`-returning
recursive-descent parser for exactly the JSON grammar (ECMA-404 with
JSON.parse's whitespace set).  Numbers keep their source token (the
claims never inspect numeric values, only grammatical acceptance). -/

/-- A parsed JSON value (the result of a successful `JSON.parse`). -/
inductive Json where
  | null : Json
  | bool (b : Bool) : Json
  | num (token : String) : Json
  | str (s : String) : Json
  | arr (elems : List Json) : Json
  | obj (fields : List (String × Json)) : Json

/-- JSON whitespace (the only characters `JSON.parse` skips between tokens). -/
def isJsonWs (c : Char) : Bool :=
  c == ' ' || c == '\t' || c == '\n' || c == '\r'

/-- Decode one JSON string-literal escape character (the char after a
backslash, other than `u`): the table of RFC 8259 two-character escapes. -/
def jsonEscChar : Char → Option Char
  | '"' => some '"'
  | '\\' => some '\\'
  | '/' => some '/'
  | 'b' => some (Char.ofNat 8)
  | 'f' => some (Char.ofNat 12)
  | 'n' => some (Char.ofNat 10)
  | 'r' => some (Char.ofNat 13)
  | 't' => some (Char.ofNat 9)
  | _ => none

/-- Hex digit value, or none (code points: 0-9 are 48-57, a-f 97-102,
A-F 65-70). -/
def hexVal (c : Char) : Option Nat :=
  let n := c.toNat
  if 48 ≤ n ∧ n ≤ 57 then some (n - 48)
  else if 97 ≤ n ∧ n ≤ 102 then some (n - 87)
  else if 65 ≤ n ∧ n ≤ 70 then some (n - 55)
  else none

/-- Parse the body of a JSON string literal (the opening quote already
consumed); returns the decoded characters and the rest after the
closing quote.  Raw control characters below U+0020 are rejected, as
`JSON.parse` rejects them. -/
def parseJsonString : List Char → Option (List Char × List Char)
  | [] => none
  | c :: rest =>
    if c == '"' then some ([], rest)
    else if c == '\\' then
      match rest with
      | [] => none
      | e :: rest2 =>
        if e == 'u' then
          match rest2 with
          | h1 :: h2 :: h3 :: h4 :: rest3 =>
            match hexVal h1, hexVal h2, hexVal h3, hexVal h4 with
            | some v1, some v2, some v3, some v4 =>
              match parseJsonString rest3 with
              | some (cs, rem) =>
                some (Char.ofNat (((v1 * 16 + v2) * 16 + v3) * 16 + v4) :: cs, rem)
              | none => none
            | _, _, _, _ => none
          | _ => none
        else
          match jsonEscChar e with
          | some d =>
            match parseJsonString rest2 with
            | some (cs, rem) => some (d :: cs, rem)
            | none => none
          | none => none
    else if c.toNat < 32 then none
    else
      match parseJsonString rest with
      | some (cs, rem) => some (c :: cs, rem)
      | none => none

/-- Take a nonempty run of ASCII digits; none if the first char is not a digit. -/
def takeDigits1 (s : List Char) : Option (List Char × List Char) :=
  let ds := s.takeWhile Char.isDigit
  if ds.isEmpty then none else some (ds, s.drop ds.length)

/-- Parse a JSON number token starting at the head of `s` (grammar
`-? (0 | [1-9][0-9]*) frac? exp?`); returns the token characters and
the rest. -/
def parseJsonNumber (s : List Char) : Option (List Char × List Char) :=
  let (sign, s1) :=
    match s with
    | c :: rest => if c == '-' then (['-'], rest) else (([] : List Char), s)
    | [] => ([], s)
  match s1 with
  | [] => none
  | c :: rest =>
    if ¬ c.isDigit then none
    else
      let (intPart, s2) :=
        if c == '0' then ([c], rest)
        else
          let ds := rest.takeWhile Char.isDigit
          (c :: ds, rest.drop ds.length)
      let fracRes : Option (List Char × List Char) :=
        match s2 with
        | '.' :: s3 =>
          match takeDigits1 s3 with
          | some (ds, s4) => some ('.' :: ds, s4)
          | none => none
        | _ => some ([], s2)
      match fracRes with
      | none => none
      | some (fracPart, s5) =>
        match s5 with
        | e :: s6 =>
          if e == 'e' || e == 'E' then
            let (es, s7) :=
              match s6 with
              | c2 :: s7a => if c2 == '+' || c2 == '-' then ([e, c2], s7a) else ([e], s6)
              | [] => ([e], s6)
            match takeDigits1 s7 with
            | some (ds, s8) => some (sign ++ intPart ++ fracPart ++ es ++ ds, s8)
            | none => none
          else some (sign ++ intPart ++ fracPart, s5)
        | [] => some (sign ++ intPart ++ fracPart, s5)

mutual

/-- Parse one JSON value, fueled (fuel bounds the nesting of recursive
descent; callers supply more fuel than the input length, which always
suffices since every recursive call first consumes a character). -/
def parseJsonValue : Nat → List Char → Option (Json × List Char)
  | 0, _ => none
  | fuel + 1, s =>
    let s := s.dropWhile isJsonWs
    match s with
    | [] => none
    | c :: rest =>
      if c == '\x7b' then
        parseJsonMembersStart fuel rest
      else if c == '[' then
        parseJsonElemsStart fuel rest
      else if c == '"' then
        match parseJsonString rest with
        | some (cs, rem) => some (.str (String.mk cs), rem)
        | none => none
      else if c == 't' then
        match rest with
        | 'r' :: 'u' :: 'e' :: rem => some (.bool true, rem)
        | _ => none
      else if c == 'f' then
        match rest with
        | 'a' :: 'l' :: 's' :: 'e' :: rem => some (.bool false, rem)
        | _ => none
      else if c == 'n' then
        match rest with
        | 'u' :: 'l' :: 'l' :: rem => some (.null, rem)
        | _ => none
      else
        match parseJsonNumber s with
        | some (tok, rem) => some (.num (String.mk tok), rem)
        | none => none

/-- After `{`: either `}` or the first member. -/
def parseJsonMembersStart : Nat → List Char → Option (Json × List Char)
  | 0, _ => none
  | fuel + 1, s =>
    let s := s.dropWhile isJsonWs
    match s with
    | '\x7d' :: rem => some (.obj [], rem)
    | _ => parseJsonMembers fuel s []

/-- One `"key" : value` member followed by `,` more members or `}`. -/
def parseJsonMembers : Nat → List Char → List (String × Json) → Option (Json × List Char)
  | 0, _, _ => none
  | fuel + 1, s, acc =>
    match s.dropWhile isJsonWs with
    | '"' :: rest =>
      match parseJsonString rest with
      | some (key, afterKey) =>
        match afterKey.dropWhile isJsonWs with
        | ':' :: afterColon =>
          match parseJsonValue fuel afterColon with
          | some (v, afterVal) =>
            match afterVal.dropWhile isJsonWs with
            | ',' :: more => parseJsonMembers fuel more (acc ++ [(String.mk key, v)])
            | '\x7d' :: rem => some (.obj (acc ++ [(String.mk key, v)]), rem)
            | _ => none
          | none => none
        | _ => none
      | none => none
    | _ => none

/-- After `[`: either `]` or the first element. -/
def parseJsonElemsStart : Nat → List Char → Option (Json × List Char)
  | 0, _ => none
  | fuel + 1, s =>
    let s := s.dropWhile isJsonWs
    match s with
    | ']' :: rem => some (.arr [], rem)
    | _ => parseJsonElems fuel s []

/-- One array element followed by `,` more elements or `]`. -/
def parseJsonElems : Nat → List Char → List Json → Option (Json × List Char)
  | 0, _, _ => none
  | fuel + 1, s, acc =>
    match parseJsonValue fuel s with
    | some (v, afterVal) =>
      match afterVal.dropWhile isJsonWs with
      | ',' :: more => parseJsonElems fuel more (acc ++ [v])
      | ']' :: rem => some (.arr (acc ++ [v]), rem)
      | _ => none
    | none => none

end

/-- Model of JavaScript `JSON.parse(s)`: `some value` when the whole
input is one JSON text, `none` when `JSON.parse` would throw. -/
def parseJson (s : List Char) : Option Json :=
  match parseJsonValue (3 * s.length + 3) s with
  | some (v, rest) => if (rest.dropWhile isJsonWs).isEmpty then some v else none
  | none => none

/- ───────────────────── json-repair.mjs : extraction ─────────────────────

`extractJsonLikeArgs(text, fromIdx)`: find the first `{` or `[` at or
after `fromIdx`, then scan forward with string awareness to the
matching close.  The scanner state mirrors the JS loop: `depth` (an
integer), `inString`, `quote` and `escaped`. -/

/-- The bracket-balanced scan of `extractJsonLikeArgs`, started on the
substring whose head is the opening bracket; returns the offset of the
closing bracket, or `none` when the text ends first. -/
def extractScanGo : List Char → Int → Bool → Option Char → Bool → Nat → Option Nat
  | [], _, _, _, _, _ => none
  | c :: rest, depth, inString, quote, escaped, i =>
    if escaped then extractScanGo rest depth inString quote false (i + 1)
    else if c == '\\' then extractScanGo rest depth inString quote inString (i + 1)
    else if inString then
      if some c == quote then extractScanGo rest depth false none false (i + 1)
      else extractScanGo rest depth true quote false (i + 1)
    else if c == '"' || c == '\x27' then extractScanGo rest depth true (some c) false (i + 1)
    else if c == '\x7b' || c == '[' then extractScanGo rest (depth + 1) false none false (i + 1)
    else if c == '\x7d' || c == ']' then
      let d := depth - 1
      if d == 0 then some i else extractScanGo rest d false none false (i + 1)
    else extractScanGo rest depth false none false (i + 1)

/-- `extractJsonLikeArgs` from `json-repair.mjs`: the result is the
JSON-like substring and the `unterminated` flag. -/
def extractJsonLikeArgs (text : List Char) (fromIdx : Nat) : Option (List Char × Bool) :=
  let afterFrom := text.drop fromIdx
  match afterFrom.findIdx? (fun c => c == '\x7b' || c == '[') with
  | none => none
  | some k =>
    let sub := afterFrom.drop k
    match extractScanGo sub 0 false none false 0 with
    | some i => some (sub.take (i + 1), false)
    | none => some (sub, true)

/- ───────────────────── json-repair.mjs : repair steps ───────────────────── -/

/-- `s.replace(/<\/s>/g, "")`: remove every `</s>` marker, scanning
left to right without rescanning replaced text (exactly the JS
global-replace behaviour). -/
def removeEosMarkers : List Char → List Char
  | '<' :: '/' :: 's' :: '>' :: rest => removeEosMarkers rest
  | c :: rest => c :: removeEosMarkers rest
  | [] => []

/-- The control characters of the class `[\x00-\x08\x0b\x0c\x0e-\x1f]`
stripped from the tail in step 2 of `repairJson`. -/
def isTailControl (c : Char) : Bool :=
  c.toNat ≤ 8 || c.toNat == 11 || c.toNat == 12 || (14 ≤ c.toNat && c.toNat ≤ 31)

/-- Step 2 of `repairJson`: strip `</s>` markers, then the trailing run
of control characters, then `trim()`. -/
def stripTailGarbage (s : List Char) : List Char :=
  jsTrim (((removeEosMarkers s).reverse.dropWhile isTailControl).reverse)

/-- `removeTrailingCommas`: drop a comma whose next significant
character (after whitespace) is `}` or `]`, outside strings. -/
def rtcGo : List Char → Bool → Option Char → Bool → List Char
  | [], _, _, _ => []
  | c :: rest, inString, quote, escaped =>
    if escaped then c :: rtcGo rest inString quote false
    else if c == '\\' then c :: rtcGo rest inString quote inString
    else if inString then
      if some c == quote then c :: rtcGo rest false quote false
      else c :: rtcGo rest true quote false
    else if c == '"' || c == '\x27' then c :: rtcGo rest true (some c) false
    else if c == ',' then
      match rest.dropWhile isRepairWs with
      | '\x7d' :: _ => rtcGo rest false quote false
      | ']' :: _ => rtcGo rest false quote false
      | _ => c :: rtcGo rest false quote false
    else c :: rtcGo rest false quote false

/-- `removeTrailingCommas` from `json-repair.mjs`. -/
def removeTrailingCommas (s : List Char) : List Char :=
  rtcGo s false none false

/-- The six structural characters of the `fixKeyQuotes` scanner. -/
def isStructuralChar (c : Char) : Bool :=
  c == '\x7b' || c == '\x7d' || c == '[' || c == ']' || c == ':' || c == ','

/-- The inner forward scan of `fixKeyQuotes` looking for the end of an
unquoted key: returns the offset of the `:` (no trailing quote) or of a
`"` that is followed, possibly after whitespace, by `:` (trailing
quote); `none` when the scan bails out. -/
def scanKeyEnd : List Char → Nat → Option (Nat × Bool)
  | [], _ => none
  | c :: rest, j =>
    if c == ':' then some (j, false)
    else if c == '"' then
      -- `key":` directly, or `"` then whitespace then `:`
      match rest.dropWhile isRepairWs with
      | ':' :: _ => some (j, true)
      | _ => none
    else scanKeyEnd rest (j + 1)

/-- The main loop of `fixKeyQuotes`, fueled (each step consumes at
least one character, so fuel `length + 1` is exact). -/
def fixKeyQuotesGo : Nat → List Char → Bool → Option Char → Bool → Option Char → List Char
  | 0, _, _, _, _, _ => []
  | _ + 1, [], _, _, _, _ => []
  | fuel + 1, c :: rest, inString, quote, escaped, lastSignificant =>
    if escaped then c :: fixKeyQuotesGo fuel rest inString quote false lastSignificant
    else if c == '\\' then c :: fixKeyQuotesGo fuel rest inString quote inString lastSignificant
    else if inString then
      if some c == quote then c :: fixKeyQuotesGo fuel rest false quote false lastSignificant
      else c :: fixKeyQuotesGo fuel rest true quote false lastSignificant
    else if c == '"' || c == '\x27' then
      c :: fixKeyQuotesGo fuel rest true (some c) false (some c)
    else if isRepairWs c then
      -- whitespace passes through without touching lastSignificant
      c :: fixKeyQuotesGo fuel rest false quote false lastSignificant
    else if isStructuralChar c then
      c :: fixKeyQuotesGo fuel rest false quote false (some c)
    else if lastSignificant == some '\x7b' || lastSignificant == some ',' then
      match scanKeyEnd (c :: rest) 0 with
      | some (keyEnd, hasTrailingQuote) =>
        let rawKey := jsTrim ((c :: rest).take keyEnd)
        let consumed := if hasTrailingQuote then keyEnd + 1 else keyEnd
        '"' :: (rawKey ++ ['"']) ++
          fixKeyQuotesGo fuel ((c :: rest).drop consumed) false quote false (some '"')
      | none => c :: fixKeyQuotesGo fuel rest false quote false (some c)
    else c :: fixKeyQuotesGo fuel rest false quote false (some c)

/-- `fixKeyQuotes` from `json-repair.mjs`: rewrite `key":` and `key:`
in object-key position as `"key":`. -/
def fixKeyQuotes (s : List Char) : List Char :=
  fixKeyQuotesGo (s.length + 1) s false none false none

/-- `singleToDoubleQuotes`: convert single-quoted string delimiters to
double quotes, escaping inner double quotes of the converted strings. -/
def stdqGo : List Char → Bool → Option Char → Bool → List Char
  | [], _, _, _ => []
  | c :: rest, inString, quote, escaped =>
    if escaped then c :: stdqGo rest inString quote false
    else if c == '\\' then c :: stdqGo rest inString quote inString
    else if inString then
      if some c == quote then
        (if quote == some '\x27' then '"' else c) :: stdqGo rest false quote false
      else if c == '"' && quote == some '\x27' then
        '\\' :: '"' :: stdqGo rest true quote false
      else c :: stdqGo rest true quote false
    else if c == '\x27' then '"' :: stdqGo rest true (some c) false
    else if c == '"' then c :: stdqGo rest true (some c) false
    else c :: stdqGo rest false quote false

/-- `singleToDoubleQuotes` from `json-repair.mjs`. -/
def singleToDoubleQuotes (s : List Char) : List Char :=
  stdqGo s false none false

/-- The scan of `closeUnclosedBrackets`: final string state and the
stack of pending closers (head = closer of the last-opened bracket). -/
def closeScan : List Char → Bool → Option Char → Bool → List Char → Bool × Option Char × List Char
  | [], inString, quote, _, stack => (inString, quote, stack)
  | c :: rest, inString, quote, escaped, stack =>
    if escaped then closeScan rest inString quote false stack
    else if c == '\\' then closeScan rest inString quote inString stack
    else if inString then
      if some c == quote then closeScan rest false quote false stack
      else closeScan rest true quote false stack
    else if c == '"' || c == '\x27' then closeScan rest true (some c) false stack
    else if c == '\x7b' then closeScan rest false quote false ('\x7d' :: stack)
    else if c == '[' then closeScan rest false quote false (']' :: stack)
    else if c == '\x7d' || c == ']' then closeScan rest false quote false stack.tail
    else closeScan rest false quote false stack

/-- `closeUnclosedBrackets` from `json-repair.mjs`: close a dangling
string, then append the pending closers, last-opened first. -/
def closeUnclosedBrackets (s : List Char) : List Char :=
  match closeScan s false none false [] with
  | (inString, quote, stack) =>
    s ++ (if inString then (match quote with | some q => [q] | none => []) else []) ++ stack

/- ───────────────────── json-repair.mjs : repairJson ───────────────────── -/

/-- The result type of `repairJson`: a parsed value tagged with the
name of the repair step that produced it, or a terminal failure (the JS
`{ ok: false, error }`). -/
inductive RepairResult where
  | ok (value : Json) (step : String)
  | err

/-- `repairJson` from `json-repair.mjs`: the multi-pass repair ladder.
Each `JSON.parse` try/catch becomes a match on `parseJson`; the
function is total — it never throws. -/
def repairJson (jsonLike : List Char) : RepairResult :=
  match parseJson jsonLike with
  | some v => .ok v "raw"
  | none =>
    let s := stripTailGarbage jsonLike
    match parseJson s with
    | some v => .ok v "strip_tail"
    | none =>
      let s3 := removeTrailingCommas s
      match parseJson s3 with
      | some v => .ok v "trailing_commas"
      | none =>
        let s4 := fixKeyQuotes s3
        match parseJson s4 with
        | some v => .ok v "fix_key_quotes"
        | none =>
          let s5 := singleToDoubleQuotes s4
          match parseJson s5 with
          | some v => .ok v "single_to_double_quotes"
          | none =>
            let s6 := closeUnclosedBrackets s5
            match parseJson s6 with
            | some v => .ok v "close_brackets"
            | none => .err

/- ──────────────── json-repair.mjs : parseToolCallRobust ──────────────── -/

/-- JavaScript `\w`: ASCII letters, digits and underscore. -/
def isWordChar (c : Char) : Bool :=
  c.isAlphanum || c == '_'

/-- Try to match the regex `\[TOOL_CALLS\](\w+)\[ARGS\]` exactly at the
head of `s`: returns the captured name and the total matched length.
(The name run is maximal; a shorter run cannot be followed by `[` since
`[` is not a word character, so greedy matching is exact.) -/
def matchMarkerHere (s : List Char) : Option (List Char × Nat) :=
  if ("[TOOL_CALLS]".data).isPrefixOf s then
    let afterTag := s.drop 12
    let name := afterTag.takeWhile isWordChar
    if name.isEmpty then none
    else if ("[ARGS]".data).isPrefixOf (afterTag.drop name.length) then
      some (name, 12 + name.length + 6)
    else none
  else none

/-- First match of `\[TOOL_CALLS\](\w+)\[ARGS\]` in the text: returns
(match index, tool name, index just after the match). -/
def findToolCallMarker : List Char → Nat → Option (Nat × List Char × Nat)
  | [], _ => none
  | s@(_ :: rest), i =>
    match matchMarkerHere s with
    | some (name, mlen) => some (i, name, i + mlen)
    | none => findToolCallMarker rest (i + 1)

/-- `parseToolCallRobust` from `json-repair.mjs`: strip `</s>`, locate
the `[TOOL_CALLS]name[ARGS]` marker, extract the bracket-balanced
JSON-like substring, repair-parse it, and return
`(thinking, name, args)`; `none` when any stage fails. -/
def parseToolCallRobust (text : List Char) : Option (List Char × List Char × Json) :=
  let text := removeEosMarkers text
  match findToolCallMarker text 0 with
  | none => none
  | some (idx, name, argsStart) =>
    match extractJsonLikeArgs text argsStart with
    | none => none
    | some (jsonLike, _unterminated) =>
      match repairJson jsonLike with
      | .ok v _ => some (jsTrim (text.take idx), name, v)
      | .err => none

/- ───────────────────── Wire codec : varint (core-proto) ─────────────────────

`ProtobufEncoder._varint` and `decodeVarint` use JavaScript number
operators: `&`, `|`, `<<` coerce to signed 32-bit integers, `>>>` to
unsigned 32-bit.  We model bytes as `Nat` and the decoder's running
value as `Int` with explicit 32-bit conversions. -/

/-- JavaScript `ToUint32` applied to an integer value. -/
def toUint32 (i : Int) : Nat :=
  (i % 4294967296).toNat

/-- JavaScript `ToInt32` applied to a non-negative integer. -/
def toInt32 (n : Nat) : Int :=
  let m := n % 4294967296
  if m < 2147483648 then (m : Int) else (m : Int) - 4294967296

/-- JavaScript `a | b` (signed 32-bit bitwise or). -/
def jsOr (a b : Int) : Int :=
  toInt32 (toUint32 a ||| toUint32 b)

/-- JavaScript `a << k` (signed 32-bit shift; the count is taken mod 32). -/
def jsShl (a : Int) (k : Nat) : Int :=
  toInt32 ((toUint32 a) <<< (k % 32))

/-- `ProtobufEncoder._varint(value)`: base-128 little-endian varint
with continuation bit `0x80`.  In the source the loop is
`while (value > 0x7f) { parts.push((value & 0x7f) | 0x80); value >>>= 7 }`
followed by `parts.push(value & 0x7f)`; `value & 0x7f` equals
`value % 128` for every integer (128 divides 2^32) and `value >>>= 7`
is `value % 2^32 / 128`. -/
def varintEncode (value : Nat) : List Nat :=
  if 127 < value then
    ((value % 128) + 128) :: varintEncode (value % 4294967296 / 128)
  else [value % 128]
termination_by value
decreasing_by
  simp_wf
  omega

/-- The accumulation loop of `decodeVarint`:
`value |= (b & 0x7f) << shift; shift += 7`, stopping after the first
byte without the `0x80` continuation bit (or at the end of the
buffer), also counting the bytes consumed. -/
def decodeVarintGo : List Nat → Int → Nat → Nat → Int × Nat
  | [], value, _, used => (value, used)
  | b :: rest, value, shift, used =>
    let value := jsOr value (jsShl ((b % 128 : Nat) : Int) shift)
    if b % 256 < 128 then (value, used + 1)
    else decodeVarintGo rest value (shift + 7) (used + 1)

/-- `decodeVarint(buf, offset)` from the wire codec: returns
`[value, newOffset]`. -/
def decodeVarint (buf : List Nat) (offset : Nat) : Int × Nat :=
  match decodeVarintGo (buf.drop offset) 0 0 0 with
  | (value, used) => (value, offset + used)

/-- The bit length of a natural number (`0` has bit length `0`). -/
def bitLength (n : Nat) : Nat :=
  if n = 0 then 0 else Nat.log2 n + 1

/- ───────────────── Frame transport (Connect-RPC framing) ─────────────────

`connectFrameEncode` / `connectFrameDecode` from the core-proto module.
gzip lives in `node:zlib`, outside this repository, so compression is a
parameter: `gzipF` for `gzipSync` and `gunzipF : _ → Option _` for
`gunzipSync` (`none` = the exception the source catches). -/

/-- `Buffer.writeUInt32BE`: big-endian bytes of a 32-bit value. -/
def u32be (n : Nat) : List Nat :=
  [n / 16777216 % 256, n / 65536 % 256, n / 256 % 256, n % 256]

/-- `Buffer.readUInt32BE` over the four header bytes. -/
def readU32BE (b1 b2 b3 b4 : Nat) : Nat :=
  ((b1 * 256 + b2) * 256 + b3) * 256 + b4

/-- `connectFrameEncode(protoBytes, compress)`: 1 flag byte (bit 0 =
gzip) + 4-byte big-endian payload length + payload.  `writeUInt32BE`
throws a `RangeError` for lengths ≥ 2^32, modelled as `none`. -/
def connectFrameEncode (gzipF : List Nat → List Nat) (protoBytes : List Nat)
    (compress : Bool) : Option (List Nat) :=
  let payload := if compress then gzipF protoBytes else protoBytes
  let flags : Nat := if compress then 1 else 0
  if payload.length < 4294967296 then
    some (flags :: u32be payload.length ++ payload)
  else none

/-- `connectFrameDecode(data)`: repeatedly read a 5-byte header and
`length` payload bytes (clamped to what remains, as `subarray` clamps);
flag values 1 and 3 mean gzip — on decompression failure the raw
payload is used.  Stops as soon as fewer than 5 bytes remain.  Total by
construction: it never throws. -/
def connectFrameDecode (gunzipF : List Nat → Option (List Nat)) :
    List Nat → List (List Nat)
  | flags :: b1 :: b2 :: b3 :: b4 :: body =>
    let length := readU32BE b1 b2 b3 b4
    let payload := body.take length
    let frame :=
      if flags == 1 || flags == 3 then
        match gunzipF payload with
        | some d => d
        | none => payload
      else payload
    frame :: connectFrameDecode gunzipF (body.drop length)
  | _ => []
termination_by data => data.length
decreasing_by
  simp_wf
  omega

/- ───────────────────── ToolExecutor (local tool dispatch) ───────────────────── -/

namespace ToolExecutor

/-- `_real(virtual)`: map the virtual `/codebase` namespace onto the
real filesystem.  `path.join` is Node.js library code, so it is a
parameter; any path not starting with `/codebase` is returned verbatim. -/
def real (joinPath : String → String → String) (root virtual : String) : String :=
  if jsStartsWith virtual "/codebase" then
    joinPath root ((virtual.drop 9).dropWhile (fun c => c == '/'))
  else virtual

/-- `_remap(text)`: `text.replaceAll(this.root, "/codebase")`. -/
def remap (root text : String) : String :=
  jsReplaceAll text root "/codebase"

/-- The per-line silent cap of `_truncate`:
`line.length > 250 ? line.slice(0, 250) : line`. -/
def capLine (line : String) : String :=
  if 250 < line.length then String.mk (line.data.take 250) else line

/-- The line-list stage of `_truncate`: keep the first
`min(lines.length, 50)` lines, each capped at 250 characters. -/
def truncLines (lines : List String) : List String :=
  (lines.take (min lines.length 50)).map capLine

/-- The truncation marker appended by `_truncate` when the line limit
is exceeded. -/
def truncMarker : String := "... (lines truncated) ..."

/-- `ToolExecutor._truncate(text)`: 50-line limit with an explicit
marker, 250-character-per-line silent truncation. -/
def truncate (text : String) : String :=
  let lines := splitNl text
  let result := String.intercalate "\n" (truncLines lines)
  if 50 < lines.length then result ++ "\n" ++ truncMarker else result

/-- Lexicographic (code-unit) comparison of character lists — the
default string comparator of JavaScript `Array.prototype.sort()`. -/
def charListLe : List Char → List Char → Bool
  | [], _ => true
  | _ :: _, [] => false
  | a :: as, b :: bs => if a < b then true else if b < a then false else charListLe as bs

/-- JavaScript `Array.prototype.sort()` on strings (default comparator
= lexicographic string order; modelled as a stable sort). -/
def jsSortStrings (l : List String) : List String :=
  l.insertionSort (fun a b => charListLe a.data b.data)

/-- The output formatting of `glob(pattern, path)`: the collected
matches are sorted, capped at 100 entries, remapped into the virtual
namespace and joined by newlines — with no `_truncate` pass; an empty
result becomes `"(no matches)"` (JS `out || "(no matches)"`).  The
filesystem walk that collects `matches` is I/O, so the match list is
the argument. -/
def globOutput (root : String) (ms : List String) : String :=
  let sorted := (jsSortStrings ms).take 100
  let out := String.intercalate "\n" (sorted.map (remap root))
  if out == "" then "(no matches)" else out

end ToolExecutor

/- ───────────────────── Search orchestrator model ─────────────────────

The turn loop of `search` (core module).  The network, the remote
model and the local executor are external, so one session is driven by
an oracle list: the per-turn observation the loop makes after
`_parseResponse` — a transport failure, a reply without a tool call, an
`answer` call, a `restricted_exec` call (with the executor results the
collaborator returned), or a call to some other tool (which the loop
ignores).  The conversation log and the number of `execToolCall`
dispatches are made explicit so the claims can speak about them. -/

/-- The forced-answer instruction `FINAL_FORCE_ANSWER`. -/
def FINAL_FORCE_ANSWER : String :=
  "You have no turns left. Now you MUST provide your final ANSWER, even if it" ++
    String.mk ['\x27'] ++ "s not complete."

/-- One conversation-log message: the numeric role the wire protocol
uses (5 = system, 1 = user, 2 = assistant, 4 = tool result) and the
text content. -/
structure Msg where
  role : Nat
  content : String

/-- What the orchestrator observes on one turn. -/
inductive TurnOutcome where
  | reqFail (msg : String)
  | noTool (text : String)
  | answer (xml : String)
  | otherTool
  | exec (thinking argsJson results : String)

/-- How a session ends, carrying the same data the JS return values carry. -/
inductive Outcome where
  | rateLimited
  | reqFailed (msg : String)
  | errored (text : String)
  | rawResponse (text : String)
  | answered (xml : String)
  | exhausted

/-- The `files` list of the JS return value for a terminal outcome
(only the `answer` path can populate it; answer-payload parsing is
abstracted by `parseAnswerF`). -/
def Outcome.filesOf (parseAnswerF : String → List String) : Outcome → List String
  | .answered xml => parseAnswerF xml
  | _ => []

/-- The `error` field of the JS return value for a terminal outcome. -/
def Outcome.errorOf : Outcome → Option String
  | .rateLimited => some "Rate limited, please try again later"
  | .reqFailed m => some ("Request failed: " ++ m)
  | .errored t => some t
  | .exhausted => some "Max turns reached without getting an answer"
  | _ => none

/-- `checkRateLimit`: `true` unless the probe failed with HTTP status
429; every other failure is "assume OK" (`return true; // Don't block
on network issues`). -/
def checkRateLimit (probe : Except Nat Unit) : Bool :=
  match probe with
  | .ok _ => true
  | .error status => if status == 429 then false else true

/-- The state a finished session leaves behind: terminal outcome, final
conversation log, and how many times `executor.execToolCall` ran. -/
structure SessionState where
  outcome : Outcome
  log : List Msg
  execCount : Nat

/-- The turn loop of `search`:
`for (let turn = 0; turn < maxTurns + 1; turn++)`.  On a
`restricted_exec` turn the loop appends the assistant message and the
tool-result message, then — when `turn >= maxTurns - 1` (JS arithmetic;
for `maxTurns = 0` the JS right side is `-1`, matched by the `Nat`
truncated subtraction) — appends the forced-answer user message. -/
def searchGo (maxTurns : Nat) : Nat → List TurnOutcome → List Msg → Nat → SessionState
  | turn, outs, log, cnt =>
    if turn < maxTurns + 1 then
      match outs with
      | [] => ⟨.reqFailed "fetch failed", log, cnt⟩
      | o :: rest =>
        match o with
        | .reqFail m => ⟨.reqFailed m, log, cnt⟩
        | .noTool t =>
          if jsStartsWith t "[Error]" then ⟨.errored t, log, cnt⟩
          else ⟨.rawResponse t, log, cnt⟩
        | .answer xml => ⟨.answered xml, log, cnt⟩
        | .otherTool => searchGo maxTurns (turn + 1) rest log cnt
        | .exec thinking _argsJson results =>
          let log := log ++ [⟨2, thinking⟩, ⟨4, results⟩]
          let log :=
            if maxTurns - 1 ≤ turn then log ++ [⟨1, FINAL_FORCE_ANSWER⟩] else log
          searchGo maxTurns (turn + 1) rest log (cnt + 1)
    else ⟨.exhausted, log, cnt⟩

/-- The initial conversation log of a session: the system prompt and
the user message `"Problem Statement: " + query + …` (repo map and
hints follow inside the same user message). -/
def initLog (systemPrompt query rest : String) : List Msg :=
  [⟨5, systemPrompt⟩, ⟨1, "Problem Statement: " ++ query ++ rest⟩]

/-- The `search` session: resolve credentials and authenticate
(outside this model), probe the rate limit — status 429 short-circuits
with the rate-limited result before the executor is created and before
any turn runs — then run the turn loop. -/
def searchModel (maxTurns : Nat) (probe : Except Nat Unit) (outs : List TurnOutcome)
    (systemPrompt query rest : String) : SessionState :=
  if checkRateLimit probe then
    searchGo maxTurns 0 outs (initLog systemPrompt query rest) 0
  else ⟨.rateLimited, initLog systemPrompt query rest, 0⟩

/-- Number of forced-answer user messages in a log. -/
def forceCount (log : List Msg) : Nat :=
  log.countP (fun m => m.role == 1 && m.content == FINAL_FORCE_ANSWER)

/- ═════════════════════════════ Theorems ═════════════════════════════ -/

/- ───────────── C1: the repair ladder is first-success, in order ───────────── -/

/-- The ordered repair ladder as the spec words it: each entry is a
step name together with the candidate text that step hands to
`JSON.parse`, from lowest risk to highest (raw parse, tail stripping,
trailing-comma removal, key-quote fixing, single-to-double-quote
conversion, bracket closing); the candidates are cumulative. -/
def repairLadder (s : List Char) : List (String × List Char) :=
  let s2 := stripTailGarbage s
  let s3 := removeTrailingCommas s2
  let s4 := fixKeyQuotes s3
  let s5 := singleToDoubleQuotes s4
  let s6 := closeUnclosedBrackets s5
  [("raw", s), ("strip_tail", s2), ("trailing_commas", s3), ("fix_key_quotes", s4),
   ("single_to_double_quotes", s5), ("close_brackets", s6)]

/-- Spec-side reading of `repairJson`: the first ladder entry whose
candidate parses wins, tagged with that step's name; if no entry
parses, a failure value is returned. -/
def firstLadderSuccess (s : List Char) : RepairResult :=
  match (repairLadder s).find? (fun p => (parseJson p.2).isSome) with
  | some (step, t) =>
    match parseJson t with
    | some v => .ok v step
    | none => .err
  | none => .err

/-- C1.  For every input string, `repairJson` tries the repair steps in
the fixed increasing-risk order raw → strip_tail → trailing_commas →
fix_key_quotes → single_to_double_quotes → close_brackets; the first
step whose candidate parses is returned, tagged with that step's name,
and if no step parses the failure value `.err` is returned.  The
function is total (a Lean `def`), so it never throws. -/
theorem claim_C1 (s : List Char) : repairJson s = firstLadderSuccess s := by
  unfold repairJson firstLadderSuccess repairLadder
  cases h1 : parseJson s with
  | some v => simp [List.find?, h1]
  | none =>
    cases h2 : parseJson (stripTailGarbage s) with
    | some v => simp [List.find?, h1, h2]
    | none =>
      cases h3 : parseJson (removeTrailingCommas (stripTailGarbage s)) with
      | some v => simp [List.find?, h1, h2, h3]
      | none =>
        cases h4 : parseJson (fixKeyQuotes (removeTrailingCommas (stripTailGarbage s))) with
        | some v => simp [List.find?, h1, h2, h3, h4]
        | none =>
          cases h5 : parseJson (singleToDoubleQuotes (fixKeyQuotes
              (removeTrailingCommas (stripTailGarbage s)))) with
          | some v => simp [List.find?, h1, h2, h3, h4, h5]
          | none =>
            cases h6 : parseJson (closeUnclosedBrackets (singleToDoubleQuotes (fixKeyQuotes
                (removeTrailingCommas (stripTailGarbage s))))) with
            | some v => simp [List.find?, h1, h2, h3, h4, h5, h6]
            | none => simp [List.find?, h1, h2, h3, h4, h5, h6]

/- ───────────── C6: the missing-leading-key-quote sample repairs ───────────── -/

/-- C6.  On the argument text `{pattern":"a","path":"b"}` (first key
missing its leading quote) the repair ladder succeeds via the
`fix_key_quotes` step and returns the object with `pattern = "a"` and
`path = "b"` rather than failing. -/
theorem claim_C6 :
    repairJson "\x7bpattern\":\"a\",\"path\":\"b\"\x7d".data =
      .ok (Json.obj [("pattern", Json.str "a"), ("path", Json.str "b")]) "fix_key_quotes" := by
  rfl

/- ───────────── C7: braces inside string values do not affect balancing ─────────────

The arguments text is `{"pattern":"\\w{3,5}","path":"/src"}` — the
regex `\w{3,5}` with its backslash JSON-escaped, exactly the input of
the repository's test ("handles regex pattern with braces").  The
`{3,5}` inside the quoted value must not disturb the balanced-bracket
extraction. -/

/-- C7.  Given the tool-call text
`[TOOL_CALLS]rg[ARGS]{"pattern":"\\w{3,5}","path":"/src"}`, the
extractor selects the entire object as the arguments substring (not
flagged unterminated — the braces inside the quoted string are
ignored), the parse succeeds (already at the raw step), and the result
has `pattern` = `\w{3,5}` — containing the literal brace text `{3,5}` —
and `path` = `/src`. -/
theorem claim_C7 :
    parseToolCallRobust
        "[TOOL_CALLS]rg[ARGS]\x7b\"pattern\":\"\\\\w\x7b3,5\x7d\",\"path\":\"/src\"\x7d".data =
      some ([], "rg".data,
        Json.obj [("pattern", Json.str "\\w\x7b3,5\x7d"), ("path", Json.str "/src")]) ∧
    extractJsonLikeArgs
        "[TOOL_CALLS]rg[ARGS]\x7b\"pattern\":\"\\\\w\x7b3,5\x7d\",\"path\":\"/src\"\x7d".data 20 =
      some ("\x7b\"pattern\":\"\\\\w\x7b3,5\x7d\",\"path\":\"/src\"\x7d".data, false) ∧
    repairJson "\x7b\"pattern\":\"\\\\w\x7b3,5\x7d\",\"path\":\"/src\"\x7d".data =
      .ok (Json.obj [("pattern", Json.str "\\w\x7b3,5\x7d"), ("path", Json.str "/src")]) "raw" ∧
    "\x7b3,5\x7d".data <:+: "\\w\x7b3,5\x7d".data := by
  refine ⟨by rfl, by rfl, by rfl, "\\w".data, [], by rfl⟩

/- ───────────── C10: virtual-path remapping in ToolExecutor._real ───────────── -/

/-- C10.  `_real` remaps a path onto the real filesystem only when it
begins with `/codebase` (joining the remainder, with leading slashes
stripped, onto the project root via `path.join`); any other path is
used verbatim as a real filesystem path — so a sub-command can address
locations outside the project root. -/
theorem claim_C10 (joinPath : String → String → String) (root virtual : String) :
    (jsStartsWith virtual "/codebase" = false →
      ToolExecutor.real joinPath root virtual = virtual) ∧
    (jsStartsWith virtual "/codebase" = true →
      ToolExecutor.real joinPath root virtual =
        joinPath root ((virtual.drop 9).dropWhile (fun c => c == '/'))) := by
  constructor
  · intro h
    simp [ToolExecutor.real, h]
  · intro h
    simp [ToolExecutor.real, h]

/-- Witness for C10 at concrete inputs: `/etc/passwd` passes through
verbatim; `/codebase/src` is joined onto the root. -/
theorem claim_C10_witness :
    ToolExecutor.real (fun a b => a ++ "/" ++ b) "/home/proj" "/etc/passwd" = "/etc/passwd" ∧
    ToolExecutor.real (fun a b => a ++ "/" ++ b) "/home/proj" "/codebase/src" =
      (fun a b => a ++ "/" ++ b) "/home/proj"
        (("/codebase/src".drop 9).dropWhile (fun c => c == '/')) := by
  exact ⟨(claim_C10 (fun a b => a ++ "/" ++ b) "/home/proj" "/etc/passwd").1 (by decide),
    (claim_C10 (fun a b => a ++ "/" ++ b) "/home/proj" "/codebase/src").2 (by decide)⟩

/- ───────────── C9: output truncation of the tool executor ───────────── -/

set_option maxRecDepth 4000

/-- C9, counterexample.  The claim says every sub-command's text block
has at most 50 lines, at most 250 characters per line, and a marker
whenever either limit is hit.  But (a) `glob` does not pass through
`_truncate` at all: 60 matches produce a 60-line block with no marker
(the cap there is 100 entries); and (b) the per-line 250-character cap
of `_truncate` is silent — a 400-character single-line input yields the
bare 250-character prefix with no marker. -/
theorem claim_C9_counterexample :
    (splitNl (ToolExecutor.globOutput "/r" (List.replicate 60 "x"))).length = 60 ∧
    ((splitNl (ToolExecutor.globOutput "/r" (List.replicate 60 "x"))).contains
      ToolExecutor.truncMarker) = false ∧
    ToolExecutor.truncate (String.mk (List.replicate 400 'x')) =
      String.mk (List.replicate 250 'x') := by
  refine ⟨by decide, by decide, by decide⟩

/-- C9, amended.  For the sub-commands routed through
`ToolExecutor._truncate` (rg/search, readfile, tree, ls) the returned
block has at most 50 content lines, each silently capped at 250
characters (no marker for the character cap); the line-truncation
marker is appended exactly when the input exceeds 50 lines.  `glob`
output is not truncated: it is the sorted match list capped at 100
entries, joined by newlines. -/
theorem claim_C9_amended (text : String) :
    (ToolExecutor.truncLines (splitNl text)).length ≤ 50 ∧
    (∀ l ∈ ToolExecutor.truncLines (splitNl text), l.length ≤ 250) ∧
    ((splitNl text).length ≤ 50 →
      ToolExecutor.truncate text =
        String.intercalate "\n" (ToolExecutor.truncLines (splitNl text))) ∧
    (50 < (splitNl text).length →
      ToolExecutor.truncate text =
        String.intercalate "\n" (ToolExecutor.truncLines (splitNl text)) ++ "\n" ++
          ToolExecutor.truncMarker) ∧
    (∀ root ms, ToolExecutor.globOutput root ms =
      (let out := String.intercalate "\n"
          (((ToolExecutor.jsSortStrings ms).take 100).map (ToolExecutor.remap root))
       if out == "" then "(no matches)" else out)) := by
  refine ⟨?_, ?_, ?_, ?_, ?_⟩
  · simp [ToolExecutor.truncLines]
  · intro l hl
    unfold ToolExecutor.truncLines at hl
    rcases List.mem_map.1 hl with ⟨x, _, rfl⟩
    unfold ToolExecutor.capLine
    by_cases h : 250 < x.length
    · rw [if_pos h]
      show (List.take 250 x.data).length ≤ 250
      simp
    · rw [if_neg h]
      omega
  · intro h
    simp only [ToolExecutor.truncate]
    rw [if_neg (by omega)]
  · intro h
    simp only [ToolExecutor.truncate]
    rw [if_pos h]
  · intro root ms
    rfl

/-- Witness for C9 (amended) at concrete inputs: a 2-line text is
returned joined without a marker; a 60-line text gets the marker. -/
theorem claim_C9_amended_witness :
    ToolExecutor.truncate "a\nb" =
      String.intercalate "\n" (ToolExecutor.truncLines (splitNl "a\nb")) ∧
    ToolExecutor.truncate (String.intercalate "\n" (List.replicate 60 "y")) =
      String.intercalate "\n"
          (ToolExecutor.truncLines (splitNl (String.intercalate "\n" (List.replicate 60 "y")))) ++
        "\n" ++ ToolExecutor.truncMarker := by
  exact ⟨(claim_C9_amended "a\nb").2.2.1 (by decide),
    (claim_C9_amended (String.intercalate "\n" (List.replicate 60 "y"))).2.2.2.1 (by decide)⟩

/- ───────────── C8: rate-limit short circuit, fail-open otherwise ───────────── -/

/-- C8.  If the rate-check probe fails with HTTP status 429, `search`
returns the rate-limited result — empty file list, the rate-limited
error message — before any turn executes: the conversation log is
still the initial log and zero tool executions were performed.  Any
other probe failure is treated as "assume OK": the session proceeds
exactly as if the probe had succeeded. -/
theorem claim_C8 (parseAnswerF : String → List String) (mt : Nat)
    (outs : List TurnOutcome) (sys q rest : String) (s : Nat) :
    (searchModel mt (.error 429) outs sys q rest).outcome = .rateLimited ∧
    (searchModel mt (.error 429) outs sys q rest).outcome.filesOf parseAnswerF = [] ∧
    (searchModel mt (.error 429) outs sys q rest).outcome.errorOf =
      some "Rate limited, please try again later" ∧
    (searchModel mt (.error 429) outs sys q rest).execCount = 0 ∧
    (searchModel mt (.error 429) outs sys q rest).log = initLog sys q rest ∧
    (s ≠ 429 →
      searchModel mt (.error s) outs sys q rest = searchModel mt (.ok ()) outs sys q rest) := by
  refine ⟨rfl, rfl, rfl, rfl, rfl, ?_⟩
  intro hs
  simp [searchModel, checkRateLimit, beq_eq_false_iff_ne.2 hs]

/-- Witness for C8 at concrete inputs: probe status 500 is fail-open;
probe status 429 performs zero tool executions. -/
theorem claim_C8_witness :
    (searchModel 3 (.error 500) [] "s" "q" "" = searchModel 3 (.ok ()) [] "s" "q" "") ∧
    (searchModel 3 (.error 429) [] "s" "q" "").execCount = 0 := by
  have h := claim_C8 (fun _ => []) 3 [] "s" "q" "" 500
  exact ⟨h.2.2.2.2.2 (by decide), h.2.2.2.1⟩

/- ───────────── C2: injection of the force-answer message ───────────── -/

/-- Spec-side count of force-answer injections: walking the turn
outcomes from turn index `t`, an injection happens on every
`restricted_exec` turn whose index satisfies `maxTurns - 1 ≤ turn`
(the loop runs while `turn < maxTurns + 1`; a non-`restricted_exec`,
non-ignored outcome ends the session). -/
def injCount (maxTurns : Nat) : Nat → List TurnOutcome → Nat
  | _, [] => 0
  | turn, o :: rest =>
    if turn < maxTurns + 1 then
      match o with
      | .exec _ _ _ =>
        (if maxTurns - 1 ≤ turn then 1 else 0) + injCount maxTurns (turn + 1) rest
      | .otherTool => injCount maxTurns (turn + 1) rest
      | _ => 0
    else 0

lemma forceCount_append (a b : List Msg) :
    forceCount (a ++ b) = forceCount a + forceCount b := by
  simp [forceCount, List.countP_append]

lemma forceCount_nil : forceCount [] = 0 := rfl

lemma forceCount_msg_ne (role : Nat) (content : String) (l : List Msg)
    (h : (role == 1) = false) :
    forceCount (⟨role, content⟩ :: l) = forceCount l := by
  simp [forceCount, List.countP_cons, h]

lemma forceCount_force_cons (l : List Msg) :
    forceCount (⟨1, FINAL_FORCE_ANSWER⟩ :: l) = forceCount l + 1 := by
  simp [forceCount, List.countP_cons]

/-- The running force-answer count of the turn loop: whatever the log
already holds plus the injections of the remaining turns. -/
lemma searchGo_forceCount (mt : Nat) :
    ∀ (outs : List TurnOutcome) (t : Nat) (log : List Msg) (cnt : Nat),
      forceCount (searchGo mt t outs log cnt).log = forceCount log + injCount mt t outs := by
  intro outs
  induction outs with
  | nil =>
    intro t log cnt
    by_cases h : t < mt + 1 <;> simp [searchGo, injCount, h]
  | cons o rest ih =>
    intro t log cnt
    by_cases h : t < mt + 1
    · cases o with
      | reqFail m => simp [searchGo, injCount, h]
      | noTool txt =>
        by_cases he : jsStartsWith txt "[Error]" = true <;>
          simp [searchGo, injCount, h, he]
      | answer xml => simp [searchGo, injCount, h]
      | otherTool =>
        simp only [searchGo, injCount, if_pos h]
        exact ih (t + 1) log cnt
      | exec thinking argsJson results =>
        simp only [searchGo, injCount, if_pos h]
        by_cases hb : mt - 1 ≤ t
        · rw [if_pos hb, if_pos hb]
          rw [ih (t + 1) _ (cnt + 1)]
          simp only [List.append_assoc, List.cons_append, List.nil_append]
          rw [forceCount_append]
          rw [forceCount_msg_ne 2 thinking _ rfl, forceCount_msg_ne 4 results _ rfl,
            forceCount_force_cons, forceCount_nil]
          omega
        · rw [if_neg hb, if_neg hb]
          rw [ih (t + 1) _ (cnt + 1)]
          rw [forceCount_append]
          rw [forceCount_msg_ne 2 thinking _ rfl, forceCount_msg_ne 4 results _ rfl,
            forceCount_nil]
          omega
    · simp [searchGo, injCount, h]

lemma forceCount_content_ne (role : Nat) (content : String) (l : List Msg)
    (h : (content == FINAL_FORCE_ANSWER) = false) :
    forceCount (⟨role, content⟩ :: l) = forceCount l := by
  simp [forceCount, List.countP_cons, h]

/-- The initial conversation log carries no force-answer message: the
user message starts with `Problem Statement: `, the forced-answer text
with `You have no turns left.`. -/
lemma forceCount_initLog (sys q rest : String) :
    forceCount (initLog sys q rest) = 0 := by
  unfold initLog
  rw [forceCount_msg_ne 5 sys _ rfl]
  have hne : (("Problem Statement: " ++ q ++ rest) == FINAL_FORCE_ANSWER) = false := by
    apply beq_eq_false_iff_ne.2
    intro hEq
    have h1 : ("Problem Statement: " ++ q ++ rest).data.head? = some 'P' := by
      rw [String.data_append, String.data_append]
      rfl
    rw [hEq] at h1
    have h2 : FINAL_FORCE_ANSWER.data.head? = some 'Y' := rfl
    rw [h2] at h1
    exact absurd (Option.some.inj h1) (by decide)
  rw [forceCount_content_ne 1 _ _ hne, forceCount_nil]

/-- At most two injections can ever happen: only turn indices in
`[maxTurns - 1, maxTurns]` qualify. -/
lemma injCount_le (mt : Nat) :
    ∀ (outs : List TurnOutcome) (t : Nat),
      injCount mt t outs ≤ (mt + 1) - max t (mt - 1) := by
  intro outs
  induction outs with
  | nil => intro t; simp [injCount]
  | cons o rest ih =>
    intro t
    by_cases h : t < mt + 1
    · cases o with
      | reqFail m => simp [injCount, h]
      | noTool txt => simp [injCount, h]
      | answer xml => simp [injCount, h]
      | otherTool =>
        simp only [injCount, if_pos h]
        have := ih (t + 1)
        omega
      | exec thinking argsJson results =>
        simp only [injCount, if_pos h]
        have := ih (t + 1)
        by_cases hb : mt - 1 ≤ t
        · rw [if_pos hb]
          omega
        · rw [if_neg hb]
          omega
    · simp [injCount, h]

/-- C2, counterexample.  With `maxTurns = 1` and a session whose remote
replies are `restricted_exec` on both allowed turns, the force-answer
message is appended twice — once on the boundary turn (index 0) and
once more on the final turn (index 1), because the source condition
`turn >= maxTurns - 1` also holds on the last turn.  This refutes
"appended exactly once ... never more than once per session". -/
theorem claim_C2_counterexample :
    forceCount (searchModel 1 (.ok ())
      [.exec "t" "a" "r", .exec "t" "a" "r"] "sys" "q" "").log = 2 := by
  decide

/-- C2, amended.  The force-answer message is appended exactly on the
`restricted_exec` turns whose index `turn` satisfies
`maxTurns - 1 ≤ turn` — the boundary (second-to-last allowed) turn
and, when the final turn also executes commands, that final turn as
well — each time right after that turn's tool results; hence never on
an earlier turn and at most twice per session (and the second append
happens after the last request, so every request sent to the remote
model contains at most one force-answer message). -/
theorem claim_C2_amended (mt : Nat) (outs : List TurnOutcome) (sys q rest : String) :
    forceCount (searchModel mt (.ok ()) outs sys q rest).log = injCount mt 0 outs ∧
    injCount mt 0 outs ≤ 2 := by
  constructor
  · unfold searchModel
    rw [if_pos (show checkRateLimit (.ok ()) = true from rfl)]
    rw [searchGo_forceCount, forceCount_initLog]
    omega
  · have := injCount_le mt outs 0
    omega

/- ───────────── C4 / C5: Connect-RPC frame round-trip and leniency ───────────── -/

lemma readU32BE_u32be (n : Nat) (h : n < 4294967296) :
    readU32BE (n / 16777216 % 256) (n / 65536 % 256) (n / 256 % 256) (n % 256) = n := by
  unfold readU32BE
  omega

/-- Decoding a single well-formed frame. -/
lemma connectFrameDecode_single (gunzipF : List Nat → Option (List Nat))
    (flags : Nat) (P : List Nat) (hP : P.length < 4294967296) :
    connectFrameDecode gunzipF (flags :: u32be P.length ++ P) =
      [if flags == 1 || flags == 3 then
        (match gunzipF P with | some d => d | none => P)
       else P] := by
  simp only [u32be, List.cons_append, List.nil_append]
  rw [connectFrameDecode]
  rw [readU32BE_u32be P.length hP]
  rw [List.take_length, List.drop_length]
  simp [connectFrameDecode]

/-- C4.  Single-frame idempotence: for every payload and compress flag,
decoding the encoded frame yields exactly `[payload]`.  gzip is
external (`node:zlib`), so it enters as a pair `(gzipF, gunzipF)`
assumed inverse at the payload; the encoded length must fit the 4-byte
header (`writeUInt32BE` throws otherwise). -/
theorem claim_C4 (gzipF : List Nat → List Nat) (gunzipF : List Nat → Option (List Nat))
    (payload : List Nat) (compress : Bool)
    (hinv : gunzipF (gzipF payload) = some payload)
    (hlen : (if compress then (gzipF payload).length else payload.length) < 4294967296) :
    ∃ frame, connectFrameEncode gzipF payload compress = some frame ∧
      connectFrameDecode gunzipF frame = [payload] := by
  cases compress with
  | true =>
    have hlen2 : (gzipF payload).length < 4294967296 := by simpa using hlen
    refine ⟨1 :: u32be (gzipF payload).length ++ gzipF payload, ?_, ?_⟩
    · simp [connectFrameEncode, hlen2]
    · rw [connectFrameDecode_single gunzipF 1 (gzipF payload) hlen2]
      simp [hinv]
  | false =>
    have hlen2 : payload.length < 4294967296 := by simpa using hlen
    refine ⟨0 :: u32be payload.length ++ payload, ?_, ?_⟩
    · simp [connectFrameEncode, hlen2]
    · rw [connectFrameDecode_single gunzipF 0 payload hlen2]
      simp

/-- Witness for C4 at a concrete input: identity compression,
`payload = [7, 8]`, `compress = true`. -/
theorem claim_C4_witness :
    ∃ frame, connectFrameEncode (fun b => b) [7, 8] true = some frame ∧
      connectFrameDecode (fun b => some b) frame = [[7, 8]] :=
  claim_C4 (fun b => b) (fun b => some b) [7, 8] true rfl (by decide)

/-- C5.  The frame decoder is total and lenient: (a) it stops and
returns `[]` as soon as fewer than 5 bytes remain for a header; (b) on
a 5-byte header it emits one frame — the next `length` bytes, clamped
to what remains — and recurses past them; (c) when the declared length
is at least the remaining bytes, the available bytes are taken as-is
and decoding ends; (d) when the flag byte declares compression but
decompression fails, the raw payload bytes are used instead of
failing.  Being a total Lean function, it never raises an error. -/
theorem claim_C5 (gunzipF : List Nat → Option (List Nat)) (data : List Nat)
    (flags b1 b2 b3 b4 : Nat) (body : List Nat) :
    (data.length < 5 → connectFrameDecode gunzipF data = []) ∧
    (connectFrameDecode gunzipF (flags :: b1 :: b2 :: b3 :: b4 :: body) =
      (if flags == 1 || flags == 3 then
        (match gunzipF (body.take (readU32BE b1 b2 b3 b4)) with
         | some d => d
         | none => body.take (readU32BE b1 b2 b3 b4))
       else body.take (readU32BE b1 b2 b3 b4)) ::
        connectFrameDecode gunzipF (body.drop (readU32BE b1 b2 b3 b4))) ∧
    (body.length ≤ readU32BE b1 b2 b3 b4 →
      body.take (readU32BE b1 b2 b3 b4) = body ∧
      connectFrameDecode gunzipF (body.drop (readU32BE b1 b2 b3 b4)) = []) ∧
    ((flags == 1 || flags == 3) = true →
      gunzipF (body.take (readU32BE b1 b2 b3 b4)) = none →
      connectFrameDecode gunzipF (flags :: b1 :: b2 :: b3 :: b4 :: body) =
        body.take (readU32BE b1 b2 b3 b4) ::
          connectFrameDecode gunzipF (body.drop (readU32BE b1 b2 b3 b4))) := by
  refine ⟨?_, ?_, ?_, ?_⟩
  · intro h
    match data, h with
    | [], _ => simp [connectFrameDecode]
    | [a], _ => simp [connectFrameDecode]
    | [a, b], _ => simp [connectFrameDecode]
    | [a, b, c], _ => simp [connectFrameDecode]
    | [a, b, c, d], _ => simp [connectFrameDecode]
    | a :: b :: c :: d :: e :: rest, h => exact absurd h (by simp)
  · rw [connectFrameDecode]
  · intro h
    refine ⟨List.take_of_length_le h, ?_⟩
    rw [List.drop_eq_nil_of_le h]
    simp [connectFrameDecode]
  · intro hf hn
    rw [connectFrameDecode]
    rw [hf, hn]
    simp

/-- Witness for C5 at concrete inputs: a 2-byte input decodes to `[]`;
a compressed-flag frame whose decompression fails falls back to the
raw payload. -/
theorem claim_C5_witness :
    connectFrameDecode (fun _ => none) [9, 9] = [] ∧
    connectFrameDecode (fun _ => none) [1, 0, 0, 0, 2, 7, 8] =
      [7, 8].take (readU32BE 0 0 0 2) ::
        connectFrameDecode (fun _ => none) ([7, 8].drop (readU32BE 0 0 0 2)) := by
  have h := claim_C5 (fun _ => none) [9, 9] 1 0 0 0 2 [7, 8]
  exact ⟨h.1 (by decide), h.2.2.2 (by decide) rfl⟩

/- ───────────── C3: varint round-trip and encoded length ───────────── -/

lemma lor_shiftLeft_eq_add (a b k : Nat) (h : a < 2 ^ k) :
    a ||| b <<< k = a + b * 2 ^ k := by
  apply Nat.eq_of_testBit_eq
  intro j
  have hrw : a + b * 2 ^ k = 2 ^ k * b + a := by ring
  rw [Nat.testBit_lor, Nat.testBit_shiftLeft, hrw, Nat.testBit_mul_pow_two_add _ h j]
  rcases lt_or_le j k with hj | hj
  · rw [if_pos hj]
    have : (decide (j ≥ k)) = false := by simp; omega
    rw [this]
    simp
  · rw [if_neg (by omega)]
    have ha : a.testBit j = false :=
      Nat.testBit_eq_false_of_lt (lt_of_lt_of_le h (Nat.pow_le_pow_right (by norm_num) hj))
    have : (decide (j ≥ k)) = true := by simpa using hj
    rw [this, ha]
    simp

lemma toUint32_natCast (n : Nat) (h : n < 4294967296) : toUint32 (n : Int) = n := by
  unfold toUint32
  have hmod : ((n : Int)) % 4294967296 = (n : Int) := by omega
  rw [hmod]
  exact Int.toNat_natCast n

lemma toInt32_eq (n : Nat) (h : n < 2147483648) : toInt32 n = (n : Int) := by
  unfold toInt32
  rw [Nat.mod_eq_of_lt (by omega)]
  rw [if_pos (by exact_mod_cast h)]

lemma jsShl_small (b k : Nat) (hk : k ≤ 31) (hbk : b * 2 ^ k < 2147483648) :
    jsShl (b : Int) k = ((b * 2 ^ k : Nat) : Int) := by
  unfold jsShl
  have hb : b < 4294967296 := by
    have h1 : b ≤ b * 2 ^ k := Nat.le_mul_of_pos_right b (Nat.two_pow_pos k)
    omega
  rw [toUint32_natCast b hb]
  rw [Nat.mod_eq_of_lt (by omega : k < 32)]
  rw [Nat.shiftLeft_eq]
  exact toInt32_eq _ hbk

lemma jsOr_disjoint (a b k : Nat) (ha : a < 2 ^ k) (hsum : a + b * 2 ^ k < 2147483648) :
    jsOr (a : Int) ((b * 2 ^ k : Nat) : Int) = ((a + b * 2 ^ k : Nat) : Int) := by
  unfold jsOr
  have ha4 : a < 4294967296 := by omega
  have hb4 : b * 2 ^ k < 4294967296 := by omega
  rw [toUint32_natCast a ha4, toUint32_natCast (b * 2 ^ k) hb4]
  have hl : a ||| b * 2 ^ k = a + b * 2 ^ k := by
    have h2 := lor_shiftLeft_eq_add a b k ha
    rwa [Nat.shiftLeft_eq] at h2
  rw [hl]
  exact toInt32_eq (a + b * 2 ^ k) hsum

lemma varintEncode_small (v : Nat) (h : ¬ 127 < v) : varintEncode v = [v % 128] := by
  rw [varintEncode]
  simp [h]

lemma varintEncode_big (v : Nat) (h : 127 < v) :
    varintEncode v = (v % 128 + 128) :: varintEncode (v % 4294967296 / 128) := by
  rw [varintEncode]
  simp [h]

lemma two_pow_split (shift : Nat) (hs : shift ≤ 31) :
    (2 : Nat) ^ (31 - shift) * 2 ^ shift = 2 ^ 31 := by
  rw [← pow_add]
  congr 1
  omega

/-- Decoding the encoding, generalized over the accumulated value and
shift: as long as everything stays below 2^31 no 32-bit wrap occurs
and the JavaScript `|=`/`<<` accumulation is exact addition. -/
lemma decodeVarintGo_varintEncode :
    ∀ (v acc shift used : Nat), shift ≤ 31 → acc < 2 ^ shift → v < 2 ^ (31 - shift) →
      (decodeVarintGo (varintEncode v) ((acc : Nat) : Int) shift used).1 =
        ((acc + v * 2 ^ shift : Nat) : Int) := by
  intro v
  induction v using Nat.strong_induction_on with
  | _ v ih =>
    intro acc shift used hs hacc hv
    have hshift_pos : (0 : Nat) < 2 ^ shift := Nat.two_pow_pos shift
    have hsplit := two_pow_split shift hs
    have h31 : (2 : Nat) ^ 31 = 2147483648 := by norm_num
    by_cases h127 : 127 < v
    · -- continuation byte, then recurse on v / 128
      have h8 : 8 ≤ 31 - shift := by
        by_contra hcon
        have hle : (2 : Nat) ^ (31 - shift) ≤ 2 ^ 7 :=
          Nat.pow_le_pow_right (by norm_num) (by omega)
        have h7 : (2 : Nat) ^ 7 = 128 := by norm_num
        omega
      have hv31 : v < 4294967296 := by
        have hle : (2 : Nat) ^ (31 - shift) ≤ 2 ^ 31 :=
          Nat.pow_le_pow_right (by norm_num) (by omega)
        omega
      rw [varintEncode_big v h127, Nat.mod_eq_of_lt hv31]
      simp only [decodeVarintGo]
      rw [if_neg (by omega : ¬ (v % 128 + 128) % 256 < 128)]
      rw [show (v % 128 + 128) % 128 = v % 128 by omega]
      have hmask : v % 128 < 128 := Nat.mod_lt v (by norm_num)
      have hpow7 : (2 : Nat) ^ (shift + 7) = 128 * 2 ^ shift := by
        rw [pow_add]
        ring_nf
      have hp7_31 : (2 : Nat) ^ (shift + 7) ≤ 2 ^ 31 :=
        Nat.pow_le_pow_right (by norm_num) (by omega)
      have hxle : v % 128 * 2 ^ shift ≤ 127 * 2 ^ shift :=
        Nat.mul_le_mul_right (2 ^ shift) (by omega)
      have hsum127 : (2 : Nat) ^ shift + 127 * 2 ^ shift = 128 * 2 ^ shift := by ring
      -- the shifted byte and the accumulated or, both exact
      rw [jsShl_small (v % 128) shift (by omega) (by omega)]
      rw [jsOr_disjoint acc (v % 128) shift hacc (by omega)]
      have hrec := ih (v / 128) (Nat.div_lt_self (by omega) (by norm_num))
        (acc + v % 128 * 2 ^ shift) (shift + 7) (used + 1)
        (by omega) (by omega)
        (by
          rw [Nat.div_lt_iff_lt_mul (by norm_num : (0 : Nat) < 128)]
          have he : (2 : Nat) ^ (31 - (shift + 7)) * 128 = 2 ^ (31 - shift) := by
            rw [show (128 : Nat) = 2 ^ 7 by norm_num, ← pow_add]
            congr 1
            omega
          omega)
      rw [hrec]
      have hfin : acc + v % 128 * 2 ^ shift + v / 128 * 2 ^ (shift + 7) =
          acc + v * 2 ^ shift := by
        have hc : v % 128 * 2 ^ shift + v / 128 * 2 ^ (shift + 7) = v * 2 ^ shift := by
          rw [hpow7]
          calc v % 128 * 2 ^ shift + v / 128 * (128 * 2 ^ shift)
              = (v % 128 + 128 * (v / 128)) * 2 ^ shift := by ring
            _ = v * 2 ^ shift := by rw [Nat.mod_add_div]
        omega
      rw [hfin]
    · -- final byte
      rw [varintEncode_small v h127]
      simp only [decodeVarintGo]
      rw [if_pos (by omega : v % 128 % 256 < 128)]
      rw [show v % 128 % 128 = v by omega]
      have hvs : v * 2 ^ shift < 2147483648 := by
        have hlt : v * 2 ^ shift < 2 ^ (31 - shift) * 2 ^ shift :=
          (Nat.mul_lt_mul_right hshift_pos).2 hv
        omega
      have hsum : acc + v * 2 ^ shift < 2147483648 := by
        have h1 : (1 + v) * 2 ^ shift = 2 ^ shift + v * 2 ^ shift := by ring
        have h2 : (1 + v) * 2 ^ shift ≤ 2 ^ (31 - shift) * 2 ^ shift :=
          Nat.mul_le_mul_right (2 ^ shift) (by omega)
        omega
      rw [jsShl_small v shift (by omega) hvs]
      rw [jsOr_disjoint acc v shift hacc hsum]

lemma log2_div_two_pow (n : Nat) : ∀ k : Nat, Nat.log2 (n / 2 ^ k) = Nat.log2 n - k := by
  intro k
  induction k with
  | zero => simp
  | succ k ih =>
    have hdd : n / 2 ^ (k + 1) = n / 2 ^ k / 2 := by
      rw [pow_succ, Nat.div_div_eq_div_mul]
    rw [hdd, Nat.log2_eq_log_two, Nat.log_div_base, ← Nat.log2_eq_log_two, ih]
    omega

/-- The varint encoding of `v < 2^31` takes `⌊log2 v / 7⌋ + 1` bytes. -/
lemma varintEncode_length :
    ∀ v : Nat, v < 2147483648 → (varintEncode v).length = Nat.log2 v / 7 + 1 := by
  intro v
  induction v using Nat.strong_induction_on with
  | _ v ih =>
    intro h
    by_cases h127 : 127 < v
    · rw [varintEncode_big v h127, show v % 4294967296 = v by omega]
      simp only [List.length_cons]
      rw [ih (v / 128) (Nat.div_lt_self (by omega) (by norm_num)) (by omega)]
      have hlog : Nat.log2 (v / 128) = Nat.log2 v - 7 := by
        rw [show (128 : Nat) = 2 ^ 7 by norm_num, log2_div_two_pow]
      have h7 : 7 ≤ Nat.log2 v := by
        by_contra hcon
        have hlt : v < 2 ^ 7 := (Nat.log2_lt (by omega : v ≠ 0)).1 (by omega)
        norm_num at hlt
        omega
      rw [hlog]
      omega
    · rw [varintEncode_small v h127]
      simp only [List.length_cons, List.length_nil]
      have hlt : Nat.log2 v < 7 := by
        by_cases hz : v = 0
        · subst hz
          norm_num [Nat.log2]
        · refine (Nat.log2_lt hz).2 ?_
          norm_num
          omega
      omega

/-- C3, counterexample.  The claimed length formula
`ceil(bitlength(v+1)/7)` fails at `v = 127`: the encoding is one byte
but the formula gives two (the claim even contradicts its own "1 byte
for every v < 128" there).  And the round-trip fails for `v = 2^31`:
the decoder's 32-bit signed accumulation (`value |= (b & 0x7f) <<
shift`) returns `-2^31`, not `2^31`. -/
theorem claim_C3_counterexample :
    (varintEncode 127).length = 1 ∧
    (bitLength (127 + 1) + 6) / 7 = 2 ∧
    (decodeVarint (varintEncode 2147483648) 0).1 = -2147483648 := by
  refine ⟨by simp [varintEncode], ?_, ?_⟩
  · have hl : Nat.log2 128 = 7 := by norm_num [Nat.log2]
    unfold bitLength
    norm_num [hl]
  · have h : varintEncode 2147483648 = [128, 128, 128, 128, 8] := by
      simp [varintEncode]
    rw [h]
    decide

/-- C3, amended.  For every `v < 2^31` (the range where JavaScript's
32-bit bitwise accumulation is exact), decoding the encoding yields `v`
and the encoded length is `max 1 (ceil(bitlength(v)/7))` bytes — in
particular 1 byte for every `v < 128`. -/
theorem claim_C3_amended (v : Nat) (h : v < 2147483648) :
    (decodeVarint (varintEncode v) 0).1 = (v : Int) ∧
    (varintEncode v).length = max 1 ((bitLength v + 6) / 7) ∧
    (v < 128 → (varintEncode v).length = 1) := by
  refine ⟨?_, ?_, ?_⟩
  · have h31 : (2 : Nat) ^ (31 - 0) = 2147483648 := by norm_num
    have hmain := decodeVarintGo_varintEncode v 0 0 0 (by omega) (by norm_num) (by omega)
    unfold decodeVarint
    simp only [List.drop_zero]
    simp only [Nat.cast_zero] at hmain
    rw [hmain]
    norm_num
  · rw [varintEncode_length v h]
    unfold bitLength
    by_cases hz : v = 0
    · subst hz
      norm_num [Nat.log2]
    · rw [if_neg hz]
      omega
  · intro hsmall
    rw [varintEncode_small v (by omega)]
    simp

/-- Witness for C3 (amended) at `v = 300`. -/
theorem claim_C3_amended_witness :
    (decodeVarint (varintEncode 300) 0).1 = (300 : Int) ∧
    (varintEncode 300).length = max 1 ((bitLength 300 + 6) / 7) := by
  have h := claim_C3_amended 300 (by norm_num)
  exact ⟨h.1, h.2.1⟩
